import Mathlib

/-!
Shallow embedding of the bounded ordered cache implemented in
`src/faas_cache_dict/faas_cache_dict.py` (class `FaaSCacheDict`).

* The underlying `OrderedDict` that the class inherits from is modelled as an
  association list `List (K × Entry V)`; the front of the list is the
  least-recently-used end, the back is the most-recently-used end, exactly as
  in the Python object.
* Timestamps (`time.time()` values and `expire_at` stamps) are integers:
  the code only ever compares them with `<` and adds TTL offsets.
* The deep-size estimator `get_deep_byte_size` is the external collaborator
  `EstimateBytes` of the specification (section 4.3); the cache engine only
  consumes it.  It is modelled as an injected function: `sz` measures the
  whole cache contents, `szK`/`szV` measure a single prospective key/value in
  `__setitem__`.
* `on_delete_callable` may raise; per source lines 134-139 / 296-300 every
  exception it raises is caught and logged, so operations record the hook
  invocations they perform in a log of `(key, value)` pairs and the hook's
  own outcome (`Except Unit Unit`, where `.error` models a raised exception)
  never influences control flow.
* Operations that can raise (`KeyError`, `DataTooLarge`) return an explicit
  status; the state they return is the state of the object at the moment the
  exception escapes (Python exceptions do not roll back mutations).
-/

set_option linter.unusedSectionVars false

namespace FaasCache

/-- One stored cache entry: the tuple `(expire, value)` kept by
`super().__setitem__(key, (expire, value))`.  `expire = none` models
`None` (no expiry). -/
structure Entry (V : Type) where
  expire : Option Int
  value : V
deriving DecidableEq, Repr

/-- The mutable state of a `FaaSCacheDict`: the ordered mapping plus the
configuration and the cached byte-size field `_self_byte_size`.
(The re-entrant lock and the purge thread carry no state visible to the
claims; the deletion hook is passed to the operations as a parameter.) -/
structure Cache (K V : Type) where
  items : List (K × Entry V)
  defaultTtl : Option Int
  maxSizeBytes : Option Nat
  maxItems : Option Nat
  selfByteSize : Nat
deriving DecidableEq, Repr

/-- The deletion hook: `none` models `on_delete_callable=None`; a hook
returning `.error ()` models a hook call that raises. -/
abbrev Hook (K V : Type) := Option (K → V → Except Unit Unit)

/-- The injected `EstimateBytes` collaborator measuring the whole cache
(`get_deep_byte_size(self)`); determined by the cache contents. -/
abbrev Sz (K V : Type) := List (K × Entry V) → Nat

/-- Python exceptions the embedded operations can let escape. -/
inductive PyExc where
  | keyError
  | tooLarge
deriving DecidableEq, Repr

variable {K V : Type} [DecidableEq K] [DecidableEq V]

/-- `dict.__getitem__` on the raw ordered mapping: first binding wins. -/
def rawLookup : List (K × Entry V) → K → Option (Entry V)
  | [], _ => none
  | p :: rest, k => if p.1 = k then some p.2 else rawLookup rest k

/-- `key in super().keys()`. -/
def rawMember (l : List (K × Entry V)) (k : K) : Bool :=
  (rawLookup l k).isSome

/-- `dict.__delitem__` on the raw mapping: removes the binding of `k`
(first occurrence; a real dict has at most one). -/
def eraseKey : K → List (K × Entry V) → List (K × Entry V)
  | _, [] => []
  | k, p :: rest => if p.1 = k then rest else p :: eraseKey k rest

/-- `dict.__setitem__` on the raw mapping: overwrites in place when the key
is present (a dict keeps the insertion position), otherwise appends at the
back. -/
def rawSet (k : K) (e : Entry V) : List (K × Entry V) → List (K × Entry V)
  | [] => [(k, e)]
  | p :: rest => if p.1 = k then (k, e) :: rest else p :: rawSet k e rest

/-- `OrderedDict.move_to_end(key)`: detach the binding and re-append it at
the back.  (All call sites in the source invoke it on a present key; on an
absent key the model leaves the list unchanged.) -/
def moveToEnd (l : List (K × Entry V)) (k : K) : List (K × Entry V) :=
  match rawLookup l k with
  | some e => eraseKey k l ++ [(k, e)]
  | none => l

/-- A real dict never holds two bindings for one key. -/
def keysNodup (l : List (K × Entry V)) : Prop :=
  (l.map Prod.fst).Nodup

instance (l : List (K × Entry V)) : Decidable (keysNodup l) := by
  unfold keysNodup; infer_instance

/-- Python truthiness of the optional numeric fields `_max_size_bytes` and
`_max_items` (`None` and `0` are falsy). -/
def natTruthy : Option Nat → Bool
  | none => false
  | some n => n != 0

/-- Expiry test on a single stored entry, source lines 391-395:
`if expire is not None: if expire < now: return True` — note the strict
comparison. -/
def isExpiredE (e : Entry V) (now : Int) : Bool :=
  match e.expire with
  | some t => t < now
  | none => false

/-- `is_expired(key, now)`, source lines 375-395: `None` when the key is not
in the underlying mapping (the `KeyError` branch), otherwise `True`/`False`. -/
def isExpired (c : Cache K V) (k : K) (now : Int) : Option Bool :=
  (rawLookup c.items k).map (fun e => isExpiredE e now)

/-- One hook invocation, source lines 134-139: the hook is called with
`(key, value)` and any exception it raises is caught and logged, so both
outcomes produce the same state; only the invocation is observable. -/
def runHook (hook : Hook K V) (k : K) (v : V) : List (K × V) :=
  match hook with
  | none => []
  | some f =>
    match f k v with
    | .ok _ => [(k, v)]
    | .error _ => [(k, v)]

/-- The `try:` body of `__delitem__` (source lines 133-143), without the
`finally:` clause.  Returns (KeyError escaped?, new state, hook log).
When the key is absent, evaluating the hook argument
`super().__getitem__(key)[1]` raises `KeyError` inside the inner `try`
(caught and logged), and then `super().__delitem__(key)` raises the
`KeyError` that reaches the outer handler; the hook is never invoked. -/
def delCore (hook : Hook K V) (c : Cache K V) (k : K) (isTerminal : Bool) :
    Bool × Cache K V × List (K × V) :=
  match rawLookup c.items k with
  | some e =>
    let log := if isTerminal then runHook hook k e.value else []
    (false, { c with items := eraseKey k c.items }, log)
  | none => (true, c, [])

/-- `_purge_expired` (source lines 397-408): collect the keys whose
`is_expired` is truthy (computed on the state before any deletion), delete
each with `ignore_missing=True, skip_byte_size_update=True` (terminal, so
hooks fire), then call `_set_self_byte_size(skip_purge=True)` — which, via
`get_byte_size(skip_purge=True)` (lines 446-454), returns the cached
`_self_byte_size` unchanged, so no recompute of the size field happens.
`expiredKeys` is the list comprehension of line 401 (the keys whose entry is
expired, evaluated before any deletion). -/
def expiredKeys (c : Cache K V) (now : Int) : List K :=
  (c.items.map Prod.fst).filter (fun k => isExpired c k now == some true)

def purgeExpired (hook : Hook K V) (c : Cache K V) (now : Int) :
    Cache K V × List (K × V) :=
  let remove := expiredKeys c now
  remove.foldl
    (fun acc k =>
      let d := delCore hook acc.1 k true
      (d.2.1, acc.2 ++ d.2.2))
    (c, ([] : List (K × V)))

/-- `get_byte_size(skip_purge)` (source lines 446-454): with
`skip_purge=True` it returns the cached field; otherwise it purges, measures
the whole cache with `get_deep_byte_size(self)` and stores the result.
Returns (returned size, new state, hook log). -/
def getByteSize (sz : Sz K V) (hook : Hook K V) (c : Cache K V) (now : Int)
    (skipPurge : Bool) : Nat × Cache K V × List (K × V) :=
  if skipPurge then (c.selfByteSize, c, [])
  else
    let r := purgeExpired hook c now
    let b := sz r.1.items
    (b, { r.1 with selfByteSize := b }, r.2)

/-- `_set_self_byte_size(skip_purge)` (source lines 471-473): store the
value `get_byte_size(skip_purge)` returns. -/
def setSelfByteSize (sz : Sz K V) (hook : Hook K V) (c : Cache K V) (now : Int)
    (skipPurge : Bool) : Cache K V × List (K × V) :=
  let r := getByteSize sz hook c now skipPurge
  ({ r.2.1 with selfByteSize := r.1 }, r.2.2)

/-- `__delitem__` (source lines 125-146): the `try/except` core followed by
the `finally:` clause, which (unless `skip_byte_size_update`) recomputes the
cached size — itself purging first — whether or not the `KeyError`
escapes.  Returns (KeyError escaped?, final state, hook log). -/
def delitem (sz : Sz K V) (hook : Hook K V) (c : Cache K V) (k : K)
    (isTerminal ignoreMissing skipByteSizeUpdate : Bool) (now : Int) :
    Bool × Cache K V × List (K × V) :=
  let d := delCore hook c k isTerminal
  let raised := d.1 && !ignoreMissing
  if skipByteSizeUpdate then (raised, d.2.1, d.2.2)
  else
    let s := setSelfByteSize sz hook d.2.1 now false
    (raised, s.1, d.2.2 ++ s.2)

/-- `__getitem__` (source lines 87-94).  Returns (`some value` on success,
`none` when `KeyError(key)` is raised; final state; hook log).  An expired
key is first deleted through the full `__delitem__` (terminal, with the
byte-size update) and then `KeyError` is raised; an absent key falls through
`is_expired` (which yields the falsy `None`) to `super().__getitem__`,
which raises `KeyError` without mutating anything; a live key is moved to
the most-recently-used end and its value returned. -/
def getitem (sz : Sz K V) (hook : Hook K V) (c : Cache K V) (k : K) (now : Int) :
    Option V × Cache K V × List (K × V) :=
  if isExpired c k now == some true then
    let d := delitem sz hook c k true false false now
    (none, d.2.1, d.2.2)
  else
    match rawLookup c.items k with
    | none => (none, c, [])
    | some e => (some e.value, { c with items := moveToEnd c.items k }, [])

/-- `keys()` (source lines 275-278): purge expired entries, then list the
remaining raw keys in order. -/
def keysOp (hook : Hook K V) (c : Cache K V) (now : Int) :
    List K × Cache K V × List (K × V) :=
  let r := purgeExpired hook c now
  (r.1.items.map Prod.fst, r.1, r.2)

/-- Sequential raw deletion of a list of keys, the state shape that
`_purge_expired`'s deletion loop produces. -/
def eraseList (ks : List K) (l : List (K × Entry V)) : List (K × Entry V) :=
  ks.foldl (fun acc k => eraseKey k acc) l

theorem rawLookup_cons_self (p : K × Entry V) (rest : List (K × Entry V)) :
    rawLookup (p :: rest) p.1 = some p.2 := by
  simp [rawLookup]

theorem eraseKey_of_rawLookup_none {k : K} {l : List (K × Entry V)}
    (h : rawLookup l k = none) : eraseKey k l = l := by
  induction l with
  | nil => rfl
  | cons p rest ih =>
    unfold rawLookup at h
    split at h
    · exact absurd h (by simp)
    · next hne => unfold eraseKey; rw [if_neg hne, ih h]

theorem eraseKey_sublist (k : K) (l : List (K × Entry V)) :
    List.Sublist (eraseKey k l) l := by
  induction l with
  | nil => simp [eraseKey]
  | cons p rest ih =>
    unfold eraseKey
    split
    · exact List.sublist_cons_self p rest
    · exact ih.cons₂ p

theorem eraseKey_length_le (k : K) (l : List (K × Entry V)) :
    (eraseKey k l).length ≤ l.length :=
  (eraseKey_sublist k l).length_le

theorem eraseKey_length_lt_of_present {k : K} {l : List (K × Entry V)} {e : Entry V}
    (h : rawLookup l k = some e) : (eraseKey k l).length < l.length := by
  induction l with
  | nil => simp [rawLookup] at h
  | cons p rest ih =>
    unfold rawLookup at h
    unfold eraseKey
    split at h
    · next hpk => simp [hpk]
    · next hpk =>
      rw [if_neg hpk]
      simpa using Nat.succ_lt_succ (ih h)

theorem delCore_state (hook : Hook K V) (c : Cache K V) (k : K) (t : Bool) :
    (delCore hook c k t).2.1 = { c with items := eraseKey k c.items } := by
  unfold delCore
  cases h : rawLookup c.items k with
  | none => simp [eraseKey_of_rawLookup_none h]
  | some e => simp

theorem purgeFold_state (hook : Hook K V) (ks : List K) :
    ∀ (c : Cache K V) (log : List (K × V)),
      (ks.foldl
        (fun acc k =>
          let d := delCore hook acc.1 k true
          (d.2.1, acc.2 ++ d.2.2)) (c, log)).1
        = { c with items := eraseList ks c.items } := by
  induction ks with
  | nil => intro c log; simp [eraseList]
  | cons k ks ih =>
    intro c log
    simp only [List.foldl_cons]
    rw [ih, delCore_state]
    simp [eraseList]

theorem purgeExpired_state (hook : Hook K V) (c : Cache K V) (now : Int) :
    (purgeExpired hook c now).1
      = { c with items := eraseList (expiredKeys c now) c.items } :=
  purgeFold_state hook _ c []

theorem eraseList_sublist (ks : List K) :
    ∀ l : List (K × Entry V), List.Sublist (eraseList ks l) l := by
  induction ks with
  | nil => intro l; simp [eraseList]
  | cons k ks ih =>
    intro l
    have h1 : eraseList (k :: ks) l = eraseList ks (eraseKey k l) := by
      simp [eraseList]
    rw [h1]
    exact (ih (eraseKey k l)).trans (eraseKey_sublist k l)

theorem purgeExpired_items_sublist (hook : Hook K V) (c : Cache K V) (now : Int) :
    List.Sublist (purgeExpired hook c now).1.items c.items := by
  rw [purgeExpired_state]
  exact eraseList_sublist _ c.items

theorem purgeExpired_items_length_le (hook : Hook K V) (c : Cache K V) (now : Int) :
    (purgeExpired hook c now).1.items.length ≤ c.items.length :=
  (purgeExpired_items_sublist hook c now).length_le

theorem purgeExpired_selfByteSize (hook : Hook K V) (c : Cache K V) (now : Int) :
    (purgeExpired hook c now).1.selfByteSize = c.selfByteSize := by
  rw [purgeExpired_state]

theorem getByteSize_items_le (sz : Sz K V) (hook : Hook K V) (c : Cache K V)
    (now : Int) : (getByteSize sz hook c now false).2.1.items.length ≤ c.items.length := by
  unfold getByteSize
  simpa using purgeExpired_items_length_le hook c now

theorem setSelfByteSize_items_le (sz : Sz K V) (hook : Hook K V) (c : Cache K V)
    (now : Int) : (setSelfByteSize sz hook c now false).1.items.length ≤ c.items.length := by
  unfold setSelfByteSize
  simpa using getByteSize_items_le sz hook c now

theorem delitem_items_lt_of_present (sz : Sz K V) (hook : Hook K V) (c : Cache K V)
    (k : K) (t i : Bool) (now : Int) {e : Entry V}
    (h : rawLookup c.items k = some e) :
    (delitem sz hook c k t i false now).2.1.items.length < c.items.length := by
  unfold delitem
  simp only [Bool.false_eq_true, if_false]
  calc (setSelfByteSize sz hook (delCore hook c k t).2.1 now false).1.items.length
      ≤ (delCore hook c k t).2.1.items.length := setSelfByteSize_items_le _ _ _ _
    _ < c.items.length := by
        rw [delCore_state]
        exact eraseKey_length_lt_of_present h

/-- The tail of `delete_oldest_item` after its internal purge (source lines
505-509): look at the raw keys of the (already purged) state `r`; if none
remain, raise `KeyError("EmptyCache")`, otherwise remove the head key
through the full `__delitem__` (terminal, with byte-size update). -/
def deleteOldestFrom (sz : Sz K V) (hook : Hook K V) (r : Cache K V × List (K × V))
    (now : Int) : Bool × Cache K V × List (K × V) :=
  match r.1.items with
  | [] => (true, r.1, r.2)
  | p :: _ =>
    let d := delitem sz hook r.1 p.1 true false false now
    (d.1, d.2.1, r.2 ++ d.2.2)

/-- `delete_oldest_item` (source lines 499-509): purge expired entries, then
remove the oldest remaining entry or raise `KeyError("EmptyCache")`.
Returns (KeyError escaped?, final state, hook log). -/
def deleteOldest (sz : Sz K V) (hook : Hook K V) (c : Cache K V) (now : Int) :
    Bool × Cache K V × List (K × V) :=
  deleteOldestFrom sz hook (purgeExpired hook c now) now

theorem deleteOldestFrom_length_lt (sz : Sz K V) (hook : Hook K V)
    (r : Cache K V × List (K × V)) (now : Int)
    (h : (deleteOldestFrom sz hook r now).1 = false) :
    (deleteOldestFrom sz hook r now).2.1.items.length < r.1.items.length := by
  unfold deleteOldestFrom at *
  split at h
  · simp at h
  · next p rest heq =>
    have hlk : rawLookup r.1.items p.1 = some p.2 := by
      rw [heq]; exact rawLookup_cons_self p rest
    show (delitem sz hook r.1 p.1 true false false now).2.1.items.length < r.1.items.length
    exact delitem_items_lt_of_present sz hook _ p.1 true false now hlk

theorem deleteOldest_length_lt (sz : Sz K V) (hook : Hook K V) (c : Cache K V)
    (now : Int) (h : (deleteOldest sz hook c now).1 = false) :
    (deleteOldest sz hook c now).2.1.items.length < c.items.length := by
  unfold deleteOldest at *
  exact lt_of_lt_of_le (deleteOldestFrom_length_lt sz hook _ now h)
    (purgeExpired_items_length_le hook c now)

/-- The item-count eviction loop of `__setitem__` (source lines 118-119):
`while self._max_items <= super().__len__(): self.delete_oldest_item()`.
A `KeyError` raised by `delete_oldest_item` propagates. -/
def evictToCount (sz : Sz K V) (hook : Hook K V) (m : Nat) (c : Cache K V)
    (now : Int) : Bool × Cache K V × List (K × V) :=
  if m ≤ c.items.length then
    let r := deleteOldest sz hook c now
    if hr : r.1 then (true, r.2.1, r.2.2)
    else
      have hlt : r.2.1.items.length < c.items.length :=
        deleteOldest_length_lt sz hook c now (by simpa using hr)
      let w := evictToCount sz hook m r.2.1 now
      (w.1, w.2.1, r.2.2 ++ w.2.2)
  else (false, c, [])
termination_by c.items.length

/-- The byte-budget eviction loop of `_shrink_to_fit_byte_size` (source
lines 479-481): `while self.get_byte_size() > self._max_size_bytes:
self.delete_oldest_item()`.  Each condition check itself purges and
recomputes the cached size; a `KeyError` from `delete_oldest_item`
propagates. -/
def shrinkLoop (sz : Sz K V) (hook : Hook K V) (b : Nat) (c : Cache K V)
    (now : Int) : Bool × Cache K V × List (K × V) :=
  let g := getByteSize sz hook c now false
  if g.1 > b then
    let r := deleteOldest sz hook g.2.1 now
    if hr : r.1 then (true, r.2.1, g.2.2 ++ r.2.2)
    else
      have hlt : r.2.1.items.length < c.items.length :=
        lt_of_lt_of_le (deleteOldest_length_lt sz hook g.2.1 now (by simpa using hr))
          (getByteSize_items_le sz hook c now)
      let w := shrinkLoop sz hook b r.2.1 now
      (w.1, w.2.1, g.2.2 ++ r.2.2 ++ w.2.2)
  else (false, g.2.1, g.2.2)
termination_by c.items.length

/-- `_shrink_to_fit_byte_size` (source lines 475-482): purge, then (when a
byte budget is configured and truthy) evict from the front while the
recomputed size exceeds the budget, then recompute-and-store the size.  If
the eviction loop raises, the final `_set_self_byte_size` is skipped and the
exception propagates. -/
def shrinkToFit (sz : Sz K V) (hook : Hook K V) (c : Cache K V) (now : Int) :
    Bool × Cache K V × List (K × V) :=
  let r := purgeExpired hook c now
  let w :=
    if natTruthy r.1.maxSizeBytes then
      shrinkLoop sz hook (r.1.maxSizeBytes.getD 0) r.1 now
    else (false, r.1, [])
  if w.1 then (true, w.2.1, r.2 ++ w.2.2)
  else
    let s := setSelfByteSize sz hook w.2.1 now false
    (false, s.1, r.2 ++ w.2.2 ++ s.2)

/-- Step (c) of `__setitem__` (source lines 112-119): when an item budget
is configured (truthy `_max_items`) and the key is not already present in
the raw mapping, purge expired entries and then run the front-eviction
loop; otherwise leave the state untouched. -/
def setitemStep3 (sz : Sz K V) (hook : Hook K V) (c : Cache K V) (k : K)
    (now : Int) : Bool × Cache K V × List (K × V) :=
  if natTruthy c.maxItems && !rawMember c.items k then
    let p := purgeExpired hook c now
    let e := evictToCount sz hook (c.maxItems.getD 0) p.1 now
    (e.1, e.2.1, p.2 ++ e.2.2)
  else (false, c, [])

/-- Step (b) of `__setitem__` (source lines 106-110): the expiry stamp is
the explicit `expire_at` when given, else `now + default_ttl` when a
default TTL is set (`is not None` — a zero TTL still stamps), else `None`. -/
def computeExpire (defaultTtl : Option Int) (expireAt : Option Int) (now : Int) :
    Option Int :=
  match expireAt with
  | some t => some t
  | none =>
    match defaultTtl with
    | some ttl => some (now + ttl)
    | none => none

/-- `__setitem__` (source lines 96-123), with the explicit `expire_at`
keyword and the current time `now` (`time.time()`).  Steps, in source
order: (a) when a byte budget is configured, raise `DataTooLarge` if the
estimated size of the single key plus value exceeds it — before touching
any state; (b) compute the expiry stamp (`expire_at` override, else
`now + default_ttl` when a default TTL is set, else `None`); (c) when an
item budget is configured and the key is new, purge expired entries, then
evict from the front while `max_items <= len` (`setitemStep3`); (d) insert
the entry and move it to the most-recently-used end; (e)/(f)
`_shrink_to_fit_byte_size`.  `.error` carries the escaping exception
together with the state and hook log at that point. -/
def setitem (szK : K → Nat) (szV : V → Nat) (sz : Sz K V) (hook : Hook K V)
    (c : Cache K V) (k : K) (v : V) (expireAt : Option Int) (now : Int) :
    Except (PyExc × Cache K V × List (K × V)) (Cache K V × List (K × V)) :=
  if natTruthy c.maxSizeBytes && decide (szK k + szV v > c.maxSizeBytes.getD 0) then
    .error (.tooLarge, c, [])
  else
    let expire : Option Int := computeExpire c.defaultTtl expireAt now
    let step3 : Bool × Cache K V × List (K × V) := setitemStep3 sz hook c k now
    if step3.1 then .error (.keyError, step3.2.1, step3.2.2)
    else
      let c4 : Cache K V :=
        { step3.2.1 with items := moveToEnd (rawSet k ⟨expire, v⟩ step3.2.1.items) k }
      let s := shrinkToFit sz hook c4 now
      if s.1 then .error (.keyError, s.2.1, step3.2.2 ++ s.2.2)
      else .ok (s.2.1, step3.2.2 ++ s.2.2)

/-! ### Association-list facts used by the claim proofs -/

theorem rawLookup_eq_none_iff (l : List (K × Entry V)) (k : K) :
    rawLookup l k = none ↔ ∀ p ∈ l, p.1 ≠ k := by
  induction l with
  | nil => simp [rawLookup]
  | cons p rest ih =>
    unfold rawLookup
    by_cases h : p.1 = k
    · simp [h]
    · simp [h, ih]

theorem rawLookup_mem {l : List (K × Entry V)} {k : K} {e : Entry V}
    (h : rawLookup l k = some e) : (k, e) ∈ l := by
  induction l with
  | nil => simp [rawLookup] at h
  | cons p rest ih =>
    unfold rawLookup at h
    split at h
    · next hpk =>
      injection h with h1
      have : p = (k, e) := by
        cases p
        simp only [Prod.mk.injEq]
        exact ⟨hpk, h1⟩
      rw [← this]
      exact List.mem_cons_self p rest
    · exact List.mem_cons_of_mem p (ih h)

theorem rawLookup_of_mem_nodup {l : List (K × Entry V)} {k : K} {e : Entry V}
    (hn : keysNodup l) (h : (k, e) ∈ l) : rawLookup l k = some e := by
  induction l with
  | nil => simp at h
  | cons p rest ih =>
    unfold keysNodup at hn
    simp only [List.map_cons, List.nodup_cons] at hn
    rcases List.mem_cons.mp h with h1 | h1
    · rw [← h1]; exact rawLookup_cons_self (k, e) rest
    · have hne : p.1 ≠ k := by
        intro hcontra
        exact hn.1 (hcontra ▸ (List.mem_map.mpr ⟨(k, e), h1, rfl⟩))
      unfold rawLookup
      rw [if_neg hne]
      exact ih hn.2 h1

theorem keysNodup_sublist {l1 l2 : List (K × Entry V)}
    (hs : List.Sublist l1 l2) (hn : keysNodup l2) : keysNodup l1 :=
  (hs.map Prod.fst).nodup hn

theorem eraseKey_eq_filter {k : K} {l : List (K × Entry V)} (hn : keysNodup l) :
    eraseKey k l = l.filter (fun p => decide (p.1 ≠ k)) := by
  induction l with
  | nil => rfl
  | cons p rest ih =>
    unfold keysNodup at hn
    simp only [List.map_cons, List.nodup_cons] at hn
    unfold eraseKey
    by_cases h : p.1 = k
    · rw [if_pos h]
      have : ∀ q ∈ rest, q.1 ≠ k := by
        intro q hq hqk
        exact hn.1 (h ▸ hqk ▸ (List.mem_map.mpr ⟨q, hq, rfl⟩))
      rw [List.filter_cons_of_neg (by simpa using h)]
      exact (List.filter_eq_self.mpr (by intro q hq; simpa using this q hq)).symm
    · rw [if_neg h, List.filter_cons_of_pos (by simpa using h), ih hn.2]

theorem eraseList_eq_filter (ks : List K) :
    ∀ l : List (K × Entry V), keysNodup l →
      eraseList ks l = l.filter (fun p => decide (p.1 ∉ ks)) := by
  induction ks with
  | nil =>
    intro l _
    simp [eraseList]
  | cons k ks ih =>
    intro l hn
    have h1 : eraseList (k :: ks) l = eraseList ks (eraseKey k l) := by simp [eraseList]
    rw [h1, ih _ (keysNodup_sublist (eraseKey_sublist k l) hn), eraseKey_eq_filter hn,
      List.filter_filter]
    apply List.filter_congr
    intro p _
    by_cases hpk : p.1 = k <;> by_cases hpks : p.1 ∈ ks <;> simp [hpk, hpks]

theorem purgeExpired_items_eq (hook : Hook K V) (c : Cache K V) (now : Int)
    (hn : keysNodup c.items) :
    (purgeExpired hook c now).1.items
      = c.items.filter (fun p => !isExpiredE p.2 now) := by
  rw [purgeExpired_state]
  show eraseList (expiredKeys c now) c.items = _
  rw [eraseList_eq_filter _ _ hn]
  apply List.filter_congr
  intro p hp
  have hlk : rawLookup c.items p.1 = some p.2 := rawLookup_of_mem_nodup hn hp
  by_cases he : isExpiredE p.2 now
  · have : p.1 ∈ expiredKeys c now := by
      unfold expiredKeys
      refine List.mem_filter.mpr ⟨List.mem_map.mpr ⟨p, hp, rfl⟩, ?_⟩
      simp [isExpired, hlk, he]
    simp [this, he]
  · have : p.1 ∉ expiredKeys c now := by
      unfold expiredKeys
      intro hmem
      have := (List.mem_filter.mp hmem).2
      simp [isExpired, hlk, he] at this
    simp [this, he]

theorem purgeExpired_keysNodup (hook : Hook K V) (c : Cache K V) (now : Int)
    (hn : keysNodup c.items) : keysNodup (purgeExpired hook c now).1.items :=
  keysNodup_sublist (purgeExpired_items_sublist hook c now) hn

/-- After a purge, no remaining entry is expired: the remove list of a
subsequent purge at the same time is empty. -/
theorem expiredKeys_purgeExpired (hook : Hook K V) (c : Cache K V) (now : Int)
    (hn : keysNodup c.items) :
    expiredKeys (purgeExpired hook c now).1 now = [] := by
  unfold expiredKeys
  rw [List.filter_eq_nil_iff]
  intro k hk
  rcases List.mem_map.mp hk with ⟨p, hp, hpk⟩
  have hn1 : keysNodup (purgeExpired hook c now).1.items := purgeExpired_keysNodup hook c now hn
  have hlk : rawLookup (purgeExpired hook c now).1.items p.1 = some p.2 :=
    rawLookup_of_mem_nodup hn1 (by cases p; exact hp)
  have hlive : isExpiredE p.2 now = false := by
    rw [purgeExpired_items_eq hook c now hn] at hp
    simpa using (List.mem_filter.mp hp).2
  rw [← hpk]
  simp [isExpired, hlk, hlive]

/-- A purge whose remove list is empty touches nothing: the state is
returned unchanged and no deletion (hence no hook call) happens. -/
theorem purgeExpired_of_no_expired (hook : Hook K V) (c : Cache K V) (now : Int)
    (h : expiredKeys c now = []) :
    purgeExpired hook c now = (c, ([] : List (K × V))) := by
  unfold purgeExpired
  rw [h]
  rfl

/-- Second purge after a purge at the same time: identical state, no
deletions, no hook invocations. -/
theorem purgeExpired_idem (hook : Hook K V) (c : Cache K V) (now : Int)
    (hn : keysNodup c.items) :
    purgeExpired hook (purgeExpired hook c now).1 now
      = ((purgeExpired hook c now).1, ([] : List (K × V))) :=
  purgeExpired_of_no_expired hook _ now (expiredKeys_purgeExpired hook c now hn)

theorem rawSet_length_le (k : K) (e : Entry V) (l : List (K × Entry V)) :
    (rawSet k e l).length ≤ l.length + 1 := by
  induction l with
  | nil => simp [rawSet]
  | cons p rest ih =>
    unfold rawSet
    split
    · simp
    · simpa using Nat.succ_le_succ ih

theorem eraseKey_length_add_one_of_present {k : K} {l : List (K × Entry V)}
    {e : Entry V} (h : rawLookup l k = some e) :
    (eraseKey k l).length + 1 = l.length := by
  induction l with
  | nil => simp [rawLookup] at h
  | cons p rest ih =>
    unfold rawLookup at h
    unfold eraseKey
    split at h
    · next hpk => rw [if_pos hpk]; simp
    · next hpk =>
      rw [if_neg hpk]
      have := ih h
      simp only [List.length_cons]
      omega

theorem moveToEnd_length_le (l : List (K × Entry V)) (k : K) :
    (moveToEnd l k).length ≤ l.length := by
  unfold moveToEnd
  cases h : rawLookup l k with
  | none => exact le_refl _
  | some e =>
    have := eraseKey_length_add_one_of_present h
    simp only [List.length_append, List.length_cons, List.length_nil]
    omega

theorem rawLookup_none_of_sublist {l1 l2 : List (K × Entry V)} {k : K}
    (hs : List.Sublist l1 l2) (h : rawLookup l2 k = none) :
    rawLookup l1 k = none := by
  rw [rawLookup_eq_none_iff] at h ⊢
  exact fun p hp => h p (hs.mem hp)

theorem rawLookup_eraseKey_self {k : K} {l : List (K × Entry V)}
    (hn : keysNodup l) : rawLookup (eraseKey k l) k = none := by
  rw [eraseKey_eq_filter hn, rawLookup_eq_none_iff]
  intro p hp
  simpa using (List.mem_filter.mp hp).2

/-- The eviction loop of `__setitem__` exits (without raising) only when the
raw length has dropped strictly below `max_items`. -/
theorem evictToCount_length_lt (sz : Sz K V) (hook : Hook K V) (m : Nat) :
    ∀ (n : Nat) (c : Cache K V) (now : Int), c.items.length = n →
      (evictToCount sz hook m c now).1 = false →
      (evictToCount sz hook m c now).2.1.items.length < m := by
  intro n
  induction n using Nat.strong_induction_on with
  | _ n ih =>
    intro c now hn hfalse
    rw [evictToCount] at hfalse ⊢
    by_cases hle : m ≤ c.items.length
    · rw [if_pos hle] at hfalse ⊢
      by_cases hr : (deleteOldest sz hook c now).1 = true
      · rw [dif_pos hr] at hfalse
        simp at hfalse
      · rw [dif_neg hr] at hfalse ⊢
        have hr' : (deleteOldest sz hook c now).1 = false := by simpa using hr
        have hlt : (deleteOldest sz hook c now).2.1.items.length < c.items.length :=
          deleteOldest_length_lt sz hook c now hr'
        exact ih _ (hn ▸ hlt) _ now rfl hfalse
    · rw [if_neg hle] at hfalse ⊢
      simpa using Nat.lt_of_not_le hle

/-- The byte-budget eviction loop only shrinks the raw mapping. -/
theorem shrinkLoop_length_le (sz : Sz K V) (hook : Hook K V) (b : Nat) :
    ∀ (n : Nat) (c : Cache K V) (now : Int), c.items.length = n →
      (shrinkLoop sz hook b c now).1 = false →
      (shrinkLoop sz hook b c now).2.1.items.length ≤ c.items.length := by
  intro n
  induction n using Nat.strong_induction_on with
  | _ n ih =>
    intro c now hn hfalse
    rw [shrinkLoop] at hfalse ⊢
    by_cases hgt : (getByteSize sz hook c now false).1 > b
    · rw [if_pos hgt] at hfalse ⊢
      by_cases hr : (deleteOldest sz hook (getByteSize sz hook c now false).2.1 now).1 = true
      · rw [dif_pos hr] at hfalse
        simp at hfalse
      · rw [dif_neg hr] at hfalse ⊢
        have hr' : (deleteOldest sz hook (getByteSize sz hook c now false).2.1 now).1 = false := by
          simpa using hr
        have hlt : (deleteOldest sz hook (getByteSize sz hook c now false).2.1 now).2.1.items.length
            < c.items.length :=
          lt_of_lt_of_le (deleteOldest_length_lt sz hook _ now hr')
            (getByteSize_items_le sz hook c now)
        exact le_trans (ih _ (hn ▸ hlt) _ now rfl hfalse) (le_of_lt hlt)
    · rw [if_neg hgt] at hfalse ⊢
      simpa using getByteSize_items_le sz hook c now

theorem shrinkToFit_length_le (sz : Sz K V) (hook : Hook K V) (c : Cache K V)
    (now : Int) (h : (shrinkToFit sz hook c now).1 = false) :
    (shrinkToFit sz hook c now).2.1.items.length ≤ c.items.length := by
  have hr := purgeExpired_items_length_le hook c now
  unfold shrinkToFit at h ⊢
  set w := (if natTruthy (purgeExpired hook c now).1.maxSizeBytes then
      shrinkLoop sz hook ((purgeExpired hook c now).1.maxSizeBytes.getD 0)
        (purgeExpired hook c now).1 now
    else (false, (purgeExpired hook c now).1, [])) with hwdef
  by_cases hw : w.1 = true
  · rw [if_pos hw] at h
    simp at h
  · have hw0 : w.1 = false := by simpa using hw
    rw [if_neg hw] at h ⊢
    refine le_trans (setSelfByteSize_items_le sz hook _ now) ?_
    have hwle : w.2.1.items.length ≤ (purgeExpired hook c now).1.items.length := by
      by_cases hb : natTruthy (purgeExpired hook c now).1.maxSizeBytes
      · rw [if_pos hb] at hwdef
        rw [hwdef]
        exact shrinkLoop_length_le sz hook _ _ _ now rfl (hwdef ▸ hw0)
      · rw [if_neg hb] at hwdef
        rw [hwdef]
    exact le_trans hwle hr

/-! ### Export / import (`__reduce__` / `__setstate__`) -/

/-- `__reduce__` (source lines 186-205): first `_purge_expired()`, then the
exported instance dictionary carries the configuration fields together with
`_pickled_items = list(super().items())` — the raw `(key, (expire, value))`
pairs of the purged state, in order.  Returns (state after the purge, hook
log of the purge, pickled item list). -/
def reduceExport (hook : Hook K V) (c : Cache K V) (now : Int) :
    Cache K V × List (K × V) × List (K × Entry V) :=
  let r := purgeExpired hook c now
  (r.1, r.2, r.1.items)

/-- `__setstate__` (source lines 207-229): a freshly constructed instance
(whose mapping is empty) has its `__dict__` updated with the exported
configuration (`cfg`), then each pickled `(key, (expire, value))` pair is
re-inserted in order via `super().__setitem__`, preserving the original
expiry stamps ("Restore items directly to preserve original expiry
times"). -/
def setstateImport (cfg : Cache K V) (pickled : List (K × Entry V)) : Cache K V :=
  { cfg with items := pickled.foldl (fun l p => rawSet p.1 p.2 l) cfg.items }

theorem rawSet_append_of_absent {k : K} {l : List (K × Entry V)} (e : Entry V)
    (h : rawLookup l k = none) : rawSet k e l = l ++ [(k, e)] := by
  induction l with
  | nil => rfl
  | cons p rest ih =>
    unfold rawLookup at h
    split at h
    · exact absurd h (by simp)
    · next hne =>
      unfold rawSet
      rw [if_neg hne, ih h]
      rfl

theorem foldl_rawSet_of_disjoint (l : List (K × Entry V)) :
    ∀ acc : List (K × Entry V), keysNodup l →
      (∀ k ∈ l.map Prod.fst, rawLookup acc k = none) →
      l.foldl (fun m p => rawSet p.1 p.2 m) acc = acc ++ l := by
  induction l with
  | nil => intro acc _ _; simp
  | cons p rest ih =>
    intro acc hn hdisj
    unfold keysNodup at hn
    simp only [List.map_cons, List.nodup_cons] at hn
    have habs : rawLookup acc p.1 = none := hdisj p.1 (by simp)
    simp only [List.foldl_cons]
    rw [rawSet_append_of_absent p.2 habs]
    rw [ih (acc ++ [(p.1, p.2)]) hn.2 ?_]
    · simp
    · intro k hk
      rw [rawLookup_eq_none_iff]
      intro q hq
      rcases List.mem_append.mp hq with hq1 | hq1
      · exact (rawLookup_eq_none_iff acc k).mp (hdisj k (by simp [hk])) q hq1
      · simp only [List.mem_singleton] at hq1
        rw [hq1]
        intro hcontra
        exact hn.1 (hcontra ▸ hk)

/-! ### Equality (`__eq__`) -/

/-- The shapes of right-hand operand that matter to `__eq__` (source lines
245-251): another `FaaSCacheDict` (its `items()` method, lines 280-283,
purges it and returns a Python *list* of `(key, value)` pairs), a built-in
mapping such as `dict`/`OrderedDict` (its `items()` returns a `dict_items`
view object), or a value without an `items` attribute. -/
inductive EqOther (K V : Type) where
  | faas (c : Cache K V)
  | plainMapping (pairs : List (K × V))
  | noItemsAttr
deriving DecidableEq

/-- The Python value produced by `other.items()`. -/
inductive PyItems (K V : Type) where
  | pyList (l : List (K × V))
  | itemsView (l : List (K × V))
deriving DecidableEq

/-- CPython semantics of `self_items == other.items()` where `self_items`
is a `list` of pairs: two lists compare elementwise; comparing a `list`
with a `dict_items` view yields `False` (`list.__eq__` returns
`NotImplemented` for a non-list operand, `dict_items.__eq__` only supports
set-like operands, so the interpreter falls back to identity). -/
def pyListEqItems (l : List (K × V)) : PyItems K V → Bool
  | .pyList l2 => decide (l = l2)
  | .itemsView _ => false

/-- `items()` (source lines 280-283): purge, then the list
`[(k, v[1]) for (k, v) in super().items()]`. -/
def itemsOp (hook : Hook K V) (c : Cache K V) (now : Int) :
    List (K × V) × Cache K V × List (K × V) :=
  let r := purgeExpired hook c now
  (r.1.items.map (fun p => (p.1, p.2.value)), r.1, r.2)

/-- `__eq__` (source lines 245-251): purge self; `False` when the operand
has no `items` attribute; otherwise compare the list `self_items` against
`other.items()` under CPython comparison semantics. -/
def eqOp (hook : Hook K V) (c : Cache K V) (other : EqOther K V) (now : Int) :
    Bool × Cache K V × List (K × V) :=
  let r := purgeExpired hook c now
  let selfItems := r.1.items.map (fun p => (p.1, p.2.value))
  match other with
  | .noItemsAttr => (false, r.1, r.2)
  | .faas c2 =>
    let o := itemsOp hook c2 now
    (pyListEqItems selfItems (.pyList o.1), r.1, r.2 ++ o.2.2)
  | .plainMapping pairs => (pyListEqItems selfItems (.itemsView pairs), r.1, r.2)

/-! ### The `get_deep_byte_size` / `values()` keyword mismatch -/

/-- Keyword parameters accepted by `FaaSCacheDict.values` — source line 285
declares `def values(self)`, with no keyword parameters at all. -/
def valuesKeywordParams : List String := []

/-- The keyword arguments `get_deep_byte_size` passes when the object being
measured is a `FaaSCacheDict` (src/faas_cache_dict/size_utils.py lines
20-25: `deep_kwargs['is_calculating_size'] = True` followed by
`obj.values(**deep_kwargs)`). -/
def deepSizeValuesKwargs : List String := ["is_calculating_size"]

/-- CPython call protocol: a call raises `TypeError` when it passes a
keyword argument the callee does not accept. -/
def callRaisesTypeError (params kwargs : List String) : Bool :=
  kwargs.any (fun s => !(params.contains s))

/-! ### Concrete instances used by witnesses and counterexamples -/

/-- A simplest-possible injected `EstimateBytes` for the whole cache:
count the stored entries. -/
def szLen : Sz String Int := fun l => l.length

/-- `on_delete_callable=None`. -/
def noHook : Hook String Int := none

/-- A deletion hook that raises on every invocation. -/
def raisingHook : String → Int → Except Unit Unit := fun _ _ => .error ()

/-- Injected single-key size estimate used by the witnesses. -/
def unitK : String → Nat := fun _ => 1

/-- Injected single-value size estimate used by the witnesses. -/
def unitV : Int → Nat := fun _ => 1

/-- Key/value estimators that overshoot any small budget. -/
def bigK : String → Nat := fun _ => 6

def bigV : Int → Nat := fun _ => 6

/-- `FaaSCacheDict(default_ttl=60, max_items=2)` freshly constructed
(size field recomputed with `szLen` on the empty mapping). -/
def exEmpty : Cache String Int :=
  { items := [], defaultTtl := some 60, maxSizeBytes := none,
    maxItems := some 2, selfByteSize := 0 }

/-- State after `d["a"] = 1` at time 0. -/
def exA : Cache String Int :=
  { items := [("a", { expire := some 60, value := 1 })],
    defaultTtl := some 60, maxSizeBytes := none, maxItems := some 2,
    selfByteSize := 1 }

/-- State after `d["b"] = 2` at time 1. -/
def exAB : Cache String Int :=
  { items := [("a", { expire := some 60, value := 1 }),
              ("b", { expire := some 61, value := 2 })],
    defaultTtl := some 60, maxSizeBytes := none, maxItems := some 2,
    selfByteSize := 2 }

/-- State after `d["c"] = 3` at time 2: "a" was evicted. -/
def exBC : Cache String Int :=
  { items := [("b", { expire := some 61, value := 2 }),
              ("c", { expire := some 62, value := 3 })],
    defaultTtl := some 60, maxSizeBytes := none, maxItems := some 2,
    selfByteSize := 2 }

/-- A cache whose single entry expired at time 1 while the cached size
field still holds 100 (the last recomputed value). -/
def staleCache : Cache String Int :=
  { items := [("a", { expire := some 1, value := 7 })],
    defaultTtl := none, maxSizeBytes := none, maxItems := none,
    selfByteSize := 100 }

/-- A cache with a 10-byte budget holding one entry. -/
def budgetCache : Cache String Int :=
  { items := [("x", { expire := none, value := 9 })],
    defaultTtl := none, maxSizeBytes := some 10, maxItems := none,
    selfByteSize := 1 }

/-- A cache holding one entry stamped to expire at time 5. -/
def expireAtFive : Cache String Int :=
  { items := [("a", { expire := some 5, value := 1 })],
    defaultTtl := none, maxSizeBytes := none, maxItems := none,
    selfByteSize := 1 }

/-- Three live entries, for the deletion-hook example. -/
def threeEntries : Cache String Int :=
  { items := [("a", { expire := none, value := 1 }),
              ("b", { expire := none, value := 2 }),
              ("c", { expire := none, value := 3 })],
    defaultTtl := none, maxSizeBytes := none, maxItems := none,
    selfByteSize := 3 }

/-- A mixed cache: "a" expired at 1, "b" never expires, "c" expires at 9,
viewed at time 2. -/
def mixedCache : Cache String Int :=
  { items := [("a", { expire := some 1, value := 1 }),
              ("b", { expire := none, value := 2 }),
              ("c", { expire := some 9, value := 3 })],
    defaultTtl := none, maxSizeBytes := none, maxItems := none,
    selfByteSize := 3 }

/-- `threeEntries` after deleting "a" (size recomputed by `szLen`). -/
def twoEntriesBC : Cache String Int :=
  { items := [("b", { expire := none, value := 2 }),
              ("c", { expire := none, value := 3 })],
    defaultTtl := none, maxSizeBytes := none, maxItems := none,
    selfByteSize := 2 }

/-- `twoEntriesBC` after deleting "b". -/
def oneEntryC : Cache String Int :=
  { items := [("c", { expire := none, value := 3 })],
    defaultTtl := none, maxSizeBytes := none, maxItems := none,
    selfByteSize := 1 }

/-- `oneEntryC` after deleting "c": nothing remains. -/
def emptyCache0 : Cache String Int :=
  { items := [], defaultTtl := none, maxSizeBytes := none, maxItems := none,
    selfByteSize := 0 }

/-- A cache holding the single live pair ("a", 1), for the equality claim. -/
def cacheA1 : Cache String Int :=
  { items := [("a", { expire := none, value := 1 })],
    defaultTtl := none, maxSizeBytes := none, maxItems := none,
    selfByteSize := 1 }

/-! ### Remaining facts about the operations -/

theorem runHook_of_some (f : K → V → Except Unit Unit) (k : K) (v : V) :
    runHook (some f) k v = [(k, v)] := by
  unfold runHook
  cases hfv : f k v <;> simp [hfv]

theorem setSelfByteSize_items (sz : Sz K V) (hook : Hook K V) (c : Cache K V)
    (now : Int) :
    (setSelfByteSize sz hook c now false).1.items = (purgeExpired hook c now).1.items := by
  unfold setSelfByteSize getByteSize
  simp

theorem delitem_present (sz : Sz K V) (hook : Hook K V) (c : Cache K V) (k : K)
    (now : Int) {e : Entry V} (h : rawLookup c.items k = some e) :
    delitem sz hook c k true false false now
      = (false,
        (setSelfByteSize sz hook { c with items := eraseKey k c.items } now false).1,
        runHook hook k e.value
          ++ (setSelfByteSize sz hook { c with items := eraseKey k c.items } now false).2) := by
  unfold delitem delCore
  rw [h]
  simp

/-- When an item budget `m > 0` is set and the key is new, step (c) of
`__setitem__` (when it completes without raising) leaves strictly fewer
than `m` raw entries, making room for the insert. -/
theorem setitemStep3_length (sz : Sz K V) (hook : Hook K V) (c : Cache K V)
    (k : K) (now : Int) (m : Nat) (hm : c.maxItems = some m) (hm0 : 0 < m)
    (hnew : rawLookup c.items k = none)
    (hf : (setitemStep3 sz hook c k now).1 = false) :
    (setitemStep3 sz hook c k now).2.1.items.length < m := by
  unfold setitemStep3 at hf ⊢
  have hcond : (natTruthy c.maxItems && !rawMember c.items k) = true := by
    simp [hm, natTruthy, rawMember, hnew]
    omega
  rw [if_pos hcond] at hf ⊢
  have hget : c.maxItems.getD 0 = m := by rw [hm]; rfl
  rw [hget] at hf ⊢
  exact evictToCount_length_lt sz hook m _ _ now rfl hf

/-- A completed `__setitem__` on a new key, under a positive item budget,
leaves at most `max_items` raw entries. -/
theorem setitem_ok_items_length_le (szK : K → Nat) (szV : V → Nat)
    (sz : Sz K V) (hook : Hook K V) (c : Cache K V) (k : K) (v : V)
    (ea : Option Int) (now : Int) (m : Nat)
    (res : Cache K V × List (K × V))
    (hm : c.maxItems = some m) (hm0 : 0 < m)
    (hnew : rawLookup c.items k = none)
    (hok : setitem szK szV sz hook c k v ea now = .ok res) :
    res.1.items.length ≤ m := by
  simp only [setitem] at hok
  split at hok
  · exact absurd hok (by simp)
  · split at hok
    · exact absurd hok (by simp)
    · next hstep3 =>
      split at hok
      · exact absurd hok (by simp)
      · next hs =>
        rw [Bool.not_eq_true] at hstep3 hs
        have h3 : (setitemStep3 sz hook c k now).2.1.items.length < m :=
          setitemStep3_length sz hook c k now m hm hm0 hnew hstep3
        have h4 := shrinkToFit_length_le sz hook _ now hs
        have h5 := moveToEnd_length_le
          (rawSet k ⟨computeExpire c.defaultTtl ea now, v⟩
            (setitemStep3 sz hook c k now).2.1.items) k
        have h6 := rawSet_length_le k ⟨computeExpire c.defaultTtl ea now, v⟩
          (setitemStep3 sz hook c k now).2.1.items
        have hres : res.1 = (shrinkToFit sz hook
            { (setitemStep3 sz hook c k now).2.1 with
              items := moveToEnd (rawSet k ⟨computeExpire c.defaultTtl ea now, v⟩
                (setitemStep3 sz hook c k now).2.1.items) k }
            now).2.1 := by
          injection hok with hok
          rw [← hok]
        rw [hres]
        calc (shrinkToFit sz hook _ now).2.1.items.length
            ≤ _ := h4
          _ ≤ m := by
            simp only
            omega

/-! ### The claims -/

/-- C1: the claim states that after every structural mutation — purge-expired
included — the cached byte-size field is synchronously recomputed to the deep
size of the whole cache, and that this recompute completes without error for
every cache state.  The code does neither: (i) for every cache state,
`_purge_expired` leaves `_self_byte_size` exactly as it was, because its
final `_set_self_byte_size(skip_purge=True)` reads back the cached value
instead of recomputing (lines 408, 446-454, 471-473); (ii) concretely,
purging `staleCache` (one expired entry, cached size 100) empties the raw
mapping yet leaves the field at 100 while the injected estimator measures
the purged contents as 0; and (iii) the whole-cache recompute cannot even
complete: `get_deep_byte_size` passes the keyword argument
`is_calculating_size` to `FaaSCacheDict.values()`, whose signature accepts
no keyword, so sizing any `FaaSCacheDict` raises `TypeError`. -/
theorem c1_cached_size_not_recomputed_after_purge :
    (∀ (hook : Hook K V) (c : Cache K V) (now : Int),
        (purgeExpired hook c now).1.selfByteSize = c.selfByteSize) ∧
    ((purgeExpired noHook staleCache 2).1.items = [] ∧
      (purgeExpired noHook staleCache 2).1.selfByteSize = 100 ∧
      szLen (purgeExpired noHook staleCache 2).1.items = 0) ∧
    callRaisesTypeError valuesKeywordParams deepSizeValuesKwargs = true := by
  refine ⟨fun hook c now => purgeExpired_selfByteSize hook c now, by decide, by decide⟩

/-- C2: with a size budget configured, a Set whose single key-plus-value
estimate strictly exceeds `max_size_bytes` raises `DataTooLarge` before any
mutation: the state carried by the exception is exactly the pre-call state
(same entries, order, expiry stamps, cached size) and no deletion hook ran,
independent of current occupancy. -/
theorem c2_oversized_set_rejected_before_mutation (szK : K → Nat)
    (szV : V → Nat) (sz : Sz K V) (hook : Hook K V) (c : Cache K V) (k : K)
    (v : V) (ea : Option Int) (now : Int)
    (hb : natTruthy c.maxSizeBytes = true)
    (hsz : szK k + szV v > c.maxSizeBytes.getD 0) :
    setitem szK szV sz hook c k v ea now
      = .error (.tooLarge, c, ([] : List (K × V))) := by
  unfold setitem
  rw [hb]
  simp [hsz]

theorem c2_witness :
    natTruthy budgetCache.maxSizeBytes = true ∧
    bigK "a" + bigV 1 > budgetCache.maxSizeBytes.getD 0 ∧
    setitem bigK bigV szLen noHook budgetCache "a" 1 none 0
      = .error (.tooLarge, budgetCache, []) :=
  ⟨by decide, by decide,
    c2_oversized_set_rejected_before_mutation bigK bigV szLen noHook budgetCache
      "a" 1 none 0 (by decide) (by decide)⟩

/-- C3: with a positive item budget, a completed Set on a key not already
present first purges expired entries, then evicts from the front until the
count is below `max_items`, so at most `max_items` raw entries remain; and
concretely, `Set(ttl=60, max_items=2)` with inserts "a", "b", "c" in order
leaves exactly "b", "c" with "a" evicted. -/
theorem c3_max_items_bound_and_example :
    (∀ (szK : K → Nat) (szV : V → Nat) (sz : Sz K V) (hook : Hook K V)
        (c : Cache K V) (k : K) (v : V) (ea : Option Int) (now : Int) (m : Nat)
        (res : Cache K V × List (K × V)),
        c.maxItems = some m → 0 < m → rawLookup c.items k = none →
        setitem szK szV sz hook c k v ea now = .ok res →
        res.1.items.length ≤ m) ∧
    (setitem unitK unitV szLen noHook exEmpty "a" 1 none 0 = .ok (exA, []) ∧
      setitem unitK unitV szLen noHook exA "b" 2 none 1 = .ok (exAB, []) ∧
      setitem unitK unitV szLen noHook exAB "c" 3 none 2 = .ok (exBC, []) ∧
      exBC.items.map Prod.fst = ["b", "c"] ∧
      rawLookup exBC.items "a" = none) := by
  constructor
  · intro szK szV sz hook c k v ea now m res hm hm0 hnew hok
    exact setitem_ok_items_length_le szK szV sz hook c k v ea now m res hm hm0 hnew hok
  · refine ⟨?_, ?_, ?_, by decide, by decide⟩ <;>
      simp [setitem, setitemStep3, computeExpire, shrinkToFit, shrinkLoop, evictToCount,
        deleteOldest, deleteOldestFrom, delitem, delCore, runHook, purgeExpired, expiredKeys,
        setSelfByteSize, getByteSize, natTruthy, rawMember, rawLookup, rawSet, moveToEnd,
        eraseKey, isExpired, isExpiredE, exEmpty, exA, exAB, exBC, szLen, unitK, unitV, noHook]

theorem not_mem_map_fst_of_rawLookup_none {l : List (K × Entry V)} {k : K}
    (h : rawLookup l k = none) : k ∉ l.map Prod.fst := by
  rw [rawLookup_eq_none_iff] at h
  intro hm
  rcases List.mem_map.mp hm with ⟨p, hp, hpk⟩
  exact h p hp hpk

theorem c3_witness :
    exAB.maxItems = some 2 ∧ 0 < 2 ∧ rawLookup exAB.items "c" = none ∧
    exBC.items.length ≤ 2 :=
  ⟨rfl, by decide, by decide,
    (c3_max_items_bound_and_example (K := String) (V := Int)).1 unitK unitV szLen
      noHook exAB "c" 3 none 2 2 (exBC, []) rfl (by decide) (by decide)
      (c3_max_items_bound_and_example (K := String) (V := Int)).2.2.2.1⟩

/-- Get on a present-but-expired key: the result is a `KeyError` (no value),
the key is gone from the resulting state, and when a hook is configured its
first invocation is `(key, stored value)`. -/
theorem getitem_expired (sz : Sz K V) (hook : Hook K V) (c : Cache K V)
    (k : K) (now : Int) (e : Entry V) (hn : keysNodup c.items)
    (he : rawLookup c.items k = some e) (hexp : isExpiredE e now = true) :
    (getitem sz hook c k now).1 = none ∧
    rawLookup (getitem sz hook c k now).2.1.items k = none ∧
    (∀ f, hook = some f →
      ∃ rest, (getitem sz hook c k now).2.2 = (k, e.value) :: rest) := by
  have hcond : (isExpired c k now == some true) = true := by
    simp [isExpired, he, hexp]
  have hdel := delitem_present sz hook c k now he
  have hgi : getitem sz hook c k now =
      (none,
        (setSelfByteSize sz hook { c with items := eraseKey k c.items } now false).1,
        runHook hook k e.value
          ++ (setSelfByteSize sz hook { c with items := eraseKey k c.items } now false).2) := by
    unfold getitem
    rw [if_pos hcond, hdel]
  rw [hgi]
  refine ⟨rfl, ?_, ?_⟩
  · show rawLookup
      (setSelfByteSize sz hook { c with items := eraseKey k c.items } now false).1.items k
        = none
    rw [setSelfByteSize_items]
    exact rawLookup_none_of_sublist (purgeExpired_items_sublist hook _ now)
      (rawLookup_eraseKey_self hn)
  · intro f hf
    refine ⟨(setSelfByteSize sz hook { c with items := eraseKey k c.items } now false).2, ?_⟩
    rw [hf, runHook_of_some]
    rfl

/-- C4: Get on an absent key raises `KeyError` with no mutation and no hook
call; Get on a present-but-expired key first evicts it through a terminal
`__delitem__` — invoking the configured deletion hook with the key and
stored value — and then raises `KeyError`, leaving the key absent; Get on a
present live key returns the stored value and moves the entry to the
most-recently-used end, with no side effect beyond the reorder and no hook
call. -/
theorem c4_get_semantics (sz : Sz K V) (hook : Hook K V) (c : Cache K V)
    (k : K) (now : Int) (hn : keysNodup c.items) :
    (rawLookup c.items k = none → getitem sz hook c k now = (none, c, [])) ∧
    (∀ e, rawLookup c.items k = some e → isExpiredE e now = true →
      (getitem sz hook c k now).1 = none ∧
      rawLookup (getitem sz hook c k now).2.1.items k = none ∧
      (∀ f, hook = some f →
        ∃ rest, (getitem sz hook c k now).2.2 = (k, e.value) :: rest)) ∧
    (∀ e, rawLookup c.items k = some e → isExpiredE e now = false →
      getitem sz hook c k now
        = (some e.value, { c with items := moveToEnd c.items k }, [])) := by
  refine ⟨?_, ?_, ?_⟩
  · intro h
    simp [getitem, isExpired, h]
  · intro e he hexp
    exact getitem_expired sz hook c k now e hn he hexp
  · intro e he hexp
    have hcond : ¬((isExpired c k now == some true) = true) := by
      simp [isExpired, he, hexp]
    unfold getitem
    rw [if_neg hcond, he]

theorem c4_witness :
    keysNodup expireAtFive.items ∧
    rawLookup expireAtFive.items "a" = some { expire := some 5, value := 1 } ∧
    isExpiredE { expire := some 5, value := (1 : Int) } 6 = true ∧
    (getitem szLen (some raisingHook) expireAtFive "a" 6).1 = none ∧
    rawLookup (getitem szLen (some raisingHook) expireAtFive "a" 6).2.1.items "a" = none ∧
    getitem szLen (some raisingHook) expireAtFive "zz" 6 = (none, expireAtFive, []) :=
  ⟨by decide, by decide, by decide,
    ((c4_get_semantics szLen (some raisingHook) expireAtFive "a" 6 (by decide)).2.1
      { expire := some 5, value := 1 } (by decide) (by decide)).1,
    ((c4_get_semantics szLen (some raisingHook) expireAtFive "a" 6 (by decide)).2.1
      { expire := some 5, value := 1 } (by decide) (by decide)).2.1,
    (c4_get_semantics szLen (some raisingHook) expireAtFive "zz" 6 (by decide)).1
      (by decide)⟩

/-- C5: with a deletion hook configured that raises on every invocation,
deleting any present entry still removes it, the hook is invoked with the
key and stored value, and no exception escapes the delete call; concretely,
deleting the three entries of `threeEntries` in turn with the always-raising
hook leaves zero remaining entries while every call reports no escaped
exception. -/
theorem c5_raising_hook_never_escapes :
    (∀ (sz : Sz K V) (f : K → V → Except Unit Unit) (c : Cache K V) (k : K)
        (now : Int) (e : Entry V), keysNodup c.items →
        (∀ k2 v2, f k2 v2 = .error ()) →
        rawLookup c.items k = some e →
        (delitem sz (some f) c k true false false now).1 = false ∧
        rawLookup (delitem sz (some f) c k true false false now).2.1.items k = none ∧
        (∃ rest, (delitem sz (some f) c k true false false now).2.2
          = (k, e.value) :: rest)) ∧
    (delitem szLen (some raisingHook) threeEntries "a" true false false 0
        = (false, twoEntriesBC, [("a", 1)]) ∧
      delitem szLen (some raisingHook) twoEntriesBC "b" true false false 0
        = (false, oneEntryC, [("b", 2)]) ∧
      delitem szLen (some raisingHook) oneEntryC "c" true false false 0
        = (false, emptyCache0, [("c", 3)]) ∧
      emptyCache0.items = []) := by
  constructor
  · intro sz f c k now e hn hf hk
    have hdel := delitem_present sz (some f) c k now hk
    rw [hdel]
    refine ⟨rfl, ?_, ?_⟩
    · show rawLookup
        (setSelfByteSize sz (some f) { c with items := eraseKey k c.items } now false).1.items k
          = none
      rw [setSelfByteSize_items]
      exact rawLookup_none_of_sublist (purgeExpired_items_sublist (some f) _ now)
        (rawLookup_eraseKey_self hn)
    · refine ⟨(setSelfByteSize sz (some f) { c with items := eraseKey k c.items } now false).2, ?_⟩
      rw [runHook_of_some]
      rfl
  · decide

theorem c5_witness :
    (delitem szLen (some raisingHook) threeEntries "a" true false false 0).1 = false ∧
    rawLookup
      (delitem szLen (some raisingHook) threeEntries "a" true false false 0).2.1.items "a"
        = none :=
  ⟨((c5_raising_hook_never_escapes (K := String) (V := Int)).1 szLen raisingHook
      threeEntries "a" 0 { expire := none, value := 1 } (by decide)
      (fun _ _ => rfl) (by decide)).1,
    ((c5_raising_hook_never_escapes (K := String) (V := Int)).1 szLen raisingHook
      threeEntries "a" 0 { expire := none, value := 1 } (by decide)
      (fun _ _ => rfl) (by decide)).2.1⟩

/-- C6 counterexample: the claim says the export lists every raw entry
including already-expired ones and that an export/import round-trip
reproduces the original `(key, expire_at, value)` triples.  `__reduce__`
purges first: exporting `staleCache` — whose single raw entry expired at
time 1 — at time 2 yields an empty pickled list, and importing that export
yields an empty mapping, not the original raw triple. -/
theorem c6_counterexample_expired_entry_dropped :
    (reduceExport noHook staleCache 2).2.2 = [] ∧
    staleCache.items ≠ [] ∧
    (setstateImport { staleCache with items := [] }
        (reduceExport noHook staleCache 2).2.2).items ≠ staleCache.items := by
  decide

/-- C6 (amended): `__reduce__` first purges expired entries and then exports
every remaining raw `(key, expire_at, value)` triple in order; importing the
export through `__setstate__` into a fresh instance reproduces exactly those
triples, in identical order, with the expiry stamps preserved verbatim
(never re-stamped). -/
theorem c6_roundtrip_after_purge (hook : Hook K V) (c : Cache K V) (now : Int)
    (cfg : Cache K V) (hn : keysNodup c.items) (hcfg : cfg.items = []) :
    (setstateImport cfg (reduceExport hook c now).2.2).items
      = (purgeExpired hook c now).1.items := by
  show ((purgeExpired hook c now).1.items.foldl (fun m p => rawSet p.1 p.2 m) cfg.items)
    = (purgeExpired hook c now).1.items
  rw [hcfg, foldl_rawSet_of_disjoint _ [] (purgeExpired_keysNodup hook c now hn)
    (fun k _ => rfl)]
  simp

theorem c6_witness :
    (setstateImport { mixedCache with items := [] }
        (reduceExport noHook mixedCache 2).2.2).items
      = (purgeExpired noHook mixedCache 2).1.items :=
  c6_roundtrip_after_purge noHook mixedCache 2 { mixedCache with items := [] }
    (by decide) rfl

/-- C7: the claim says a cache and a plain ordered mapping with the same
live key-to-value pairs compare equal.  They do not: `__eq__` compares the
list `self_items` against `other.items()`, and for a built-in mapping that
is a `dict_items` view, which a list never equals, so the comparison
returns `False` even though the pair sequences coincide — while comparing
against another `FaaSCacheDict` (whose `items()` returns a list) yields
`True`, and a value without an `items` attribute yields `False` rather than
an error. -/
theorem c7_eq_plain_mapping_returns_false :
    (itemsOp noHook cacheA1 0).1 = [("a", 1)] ∧
    (eqOp noHook cacheA1 (.plainMapping [("a", 1)]) 0).1 = false ∧
    (eqOp noHook cacheA1 (.faas cacheA1) 0).1 = true ∧
    (eqOp noHook cacheA1 .noItemsAttr 0).1 = false := by
  decide

/-- C8 counterexample: the claim says an entry with `expire_at = t` is
expired at every `now ≥ t` — in particular at `now = t` — so Get then
raises `NotFound`.  The code compares strictly (`expire < now`): at
`now = t` exactly, `is_expired` returns `False` and Get succeeds, returning
the stored value. -/
theorem c8_counterexample_boundary_not_expired :
    isExpired expireAtFive "a" 5 = some false ∧
    (getitem szLen noHook expireAtFive "a" 5).1 = some 1 := by
  decide

/-- C8 (amended): an entry with `expire_at = null` is never considered
expired at any time; an entry with `expire_at = t` is considered expired
exactly when `now > t` (strictly — at `now = t` it is still live); and for
a present entry with `t < now`, Get raises `NotFound` and the key is absent
from a subsequent `keys()` call. -/
theorem c8_strict_expiry (sz : Sz K V) (hook : Hook K V) (c : Cache K V)
    (k : K) (now : Int) (hn : keysNodup c.items) :
    (∀ v, rawLookup c.items k = some { expire := none, value := v } →
      isExpired c k now = some false) ∧
    (∀ t v, rawLookup c.items k = some { expire := some t, value := v } →
      (isExpired c k now = some true ↔ t < now)) ∧
    (∀ t v, rawLookup c.items k = some { expire := some t, value := v } →
      t < now →
      (getitem sz hook c k now).1 = none ∧
      k ∉ (keysOp hook (getitem sz hook c k now).2.1 now).1) := by
  refine ⟨?_, ?_, ?_⟩
  · intro v h
    simp [isExpired, h, isExpiredE]
  · intro t v h
    simp [isExpired, h, isExpiredE]
  · intro t v h ht
    have hexp : isExpiredE { expire := some t, value := v } now = true := by
      simp [isExpiredE, ht]
    have h4 := getitem_expired sz hook c k now _ hn h hexp
    refine ⟨h4.1, ?_⟩
    have hnone : rawLookup (getitem sz hook c k now).2.1.items k = none := h4.2.1
    unfold keysOp
    exact not_mem_map_fst_of_rawLookup_none
      (rawLookup_none_of_sublist (purgeExpired_items_sublist hook _ now) hnone)

theorem c8_witness :
    keysNodup expireAtFive.items ∧
    ((5 : Int) < 6) ∧
    (getitem szLen noHook expireAtFive "a" 6).1 = none ∧
    "a" ∉ (keysOp noHook (getitem szLen noHook expireAtFive "a" 6).2.1 6).1 :=
  ⟨by decide, by decide,
    ((c8_strict_expiry szLen noHook expireAtFive "a" 6 (by decide)).2.2 5 1
      (by decide) (by decide)).1,
    ((c8_strict_expiry szLen noHook expireAtFive "a" 6 (by decide)).2.2 5 1
      (by decide) (by decide)).2⟩

/-- C9: purge-expired is idempotent: at a fixed time, with no intervening
mutation, a second purge returns a state identical to the first purge's
result, deletes nothing and invokes no deletion hook. -/
theorem c9_purge_idempotent (hook : Hook K V) (c : Cache K V) (now : Int)
    (hn : keysNodup c.items) :
    purgeExpired hook (purgeExpired hook c now).1 now
      = ((purgeExpired hook c now).1, ([] : List (K × V))) :=
  purgeExpired_idem hook c now hn

theorem c9_witness :
    purgeExpired (some raisingHook) (purgeExpired (some raisingHook) mixedCache 2).1 2
      = ((purgeExpired (some raisingHook) mixedCache 2).1, []) :=
  c9_purge_idempotent (some raisingHook) mixedCache 2 (by decide)

/-- C10: for a key not currently present in the underlying mapping (never
inserted, or already deleted/purged), `is_expired` returns `None` rather
than raising or returning `False`; for a present key it returns exactly
`True` or `False` (the entry's expiry test). -/
theorem c10_is_expired_absent_returns_none (c : Cache K V) (k : K) (now : Int) :
    (rawLookup c.items k = none → isExpired c k now = none) ∧
    (∀ e, rawLookup c.items k = some e →
      isExpired c k now = some (isExpiredE e now)) := by
  constructor
  · intro h
    simp [isExpired, h]
  · intro e h
    simp [isExpired, h]

theorem c10_witness :
    isExpired mixedCache "zz" 2 = none ∧
    isExpired mixedCache "a" 2 = some (isExpiredE { expire := some 1, value := (1 : Int) } 2) :=
  ⟨(c10_is_expired_absent_returns_none mixedCache "zz" 2).1 (by decide),
    (c10_is_expired_absent_returns_none mixedCache "a" 2).2
      { expire := some 1, value := 1 } (by decide)⟩

end FaasCache
